import Mathlib

/-!
Verification of the clementine bridge core against its specification.

The development shallowly embeds the repository's Rust sources:
  - src/helpers/src/incremental_merkle.rs  (IncrementalMerkleTree)
  - src/operator/src/verifier.rs           (Verifier: new_deposit, watch_connector_tree,
                                            spend_connector_tree_utxo, is_spendable_with_preimage)
  - src/operator/src/constants.rs, src/core/src/errors.rs

Code that the sources import from crates not present under src (the sha256 hash macro,
the ZEROES and EMPTYDATA constants of circuit_helpers, and the transaction-building
helpers of operator::utils) is modelled from the specification, as marked in the
doc comments below.
-/

/-- Leaf/hash values. The source type is a 32-byte array; values are modelled as
natural numbers, with the hash combining function abstract. -/
abbrev Data := Nat

/-- Modelled from the spec: the ZEROES table of circuit_helpers::config is the table of
all-empty subtree roots, with the level-0 sentinel the empty leaf EMPTYDATA and each
higher sentinel the hash of two copies of the one below (spec section 4.1 and the
new-tree root being the precomputed all-empty root for DEPTH). `H` stands for the
two-argument sha256 combination and `e` for EMPTYDATA. -/
def ZEROES (H : Data → Data → Data) (e : Data) : Nat → Data
  | 0 => e
  | n + 1 => H (ZEROES H e n) (ZEROES H e n)

/-- Embedding of `IncrementalMerkleTree<DEPTH>` from src/helpers/src/incremental_merkle.rs.
The DEPTH-sized array `filled_subtrees` is a list of that length. -/
structure IncrementalMerkleTree where
  filled_subtrees : List Data
  root : Data
  index : Nat
deriving DecidableEq

/-- Embedding of `IncrementalMerkleTree::new`: all-EMPTYDATA subtrees, root ZEROES[DEPTH],
index 0. -/
def IncrementalMerkleTree.new (H : Data → Data → Data) (e : Data) (D : Nat) :
    IncrementalMerkleTree :=
  ⟨List.replicate D e, ZEROES H e D, 0⟩

/-- The loop of `IncrementalMerkleTree::add`: walks the `filled_subtrees` array with the
running level `i`, current index and current level hash, storing the hash on even
indices (combining with ZEROES[i]) and combining the stored subtree with the hash on odd
indices; returns the updated array and the final hash. -/
def addAux (H : Data → Data → Data) (e : Data) :
    List Data → Nat → Nat → Data → List Data × Data
  | [], _, _, h => ([], h)
  | s :: rest, i, idx, h =>
    if idx % 2 = 0 then
      let r := addAux H e rest (i + 1) (idx / 2) (H h (ZEROES H e i))
      (h :: r.1, r.2)
    else
      let r := addAux H e rest (i + 1) (idx / 2) (H s h)
      (s :: r.1, r.2)

/-- Embedding of `IncrementalMerkleTree::add`: run the loop from level 0 at the current
index, store the final hash in `root` and increment `index`. The source has no capacity
check and no failure path (the method returns unit). -/
def IncrementalMerkleTree.add (H : Data → Data → Data) (e : Data)
    (t : IncrementalMerkleTree) (a : Data) : IncrementalMerkleTree :=
  let r := addAux H e t.filled_subtrees 0 t.index a
  ⟨r.1, r.2, t.index + 1⟩

/-- Inserting a sequence of leaves in order. -/
def insertAll (H : Data → Data → Data) (e : Data)
    (t : IncrementalMerkleTree) (ls : List Data) : IncrementalMerkleTree :=
  ls.foldl (IncrementalMerkleTree.add H e) t

/-- The specification-side Merkle root: the depth-`d` root over a list of leaves in
insertion order, every unfilled leaf the empty sentinel, each level combined as
`H left right` with `ZEROES i` the level-`i` all-empty root (spec sections 3 and 4.1). -/
def merkleRootSpec (H : Data → Data → Data) (e : Data) : Nat → List Data → Data
  | 0, ls => ls.headD e
  | d + 1, ls =>
      H (merkleRootSpec H e d (ls.take (2 ^ d))) (merkleRootSpec H e d (ls.drop (2 ^ d)))

/-- A concrete stand-in combining function for evaluated instances: a shifted Cantor
pairing, injective and order-sensitive like a real hash. -/
def HM (a b : Nat) : Nat := (a + b) * (a + b + 1) / 2 + b + 1

lemma merkleRootSpec_nil (H : Data → Data → Data) (e : Data) :
    ∀ d, merkleRootSpec H e d [] = ZEROES H e d
  | 0 => rfl
  | d + 1 => by
      simp [merkleRootSpec, merkleRootSpec_nil H e d, ZEROES]

/-- The filled-subtrees invariant: whenever the current index is odd at level `k`, slot
`k` holds the root of the completed left-sibling subtree at that level. -/
def GoodFS (H : Data → Data → Data) (e : Data) (fs : List Data) (ls : List Data) : Prop :=
  ∀ k, k < fs.length → (ls.length / 2 ^ k) % 2 = 1 →
    fs.getD k e
      = merkleRootSpec H e k ((ls.drop ((ls.length / 2 ^ k - 1) * 2 ^ k)).take (2 ^ k))

lemma addAux_spec (H : Data → Data → Data) (e : Data) (ls : List Data) (n : Nat)
    (hn : n + 1 = ls.length) :
    ∀ (subs : List Data) (j : Nat) (h : Data),
      n / 2 ^ j < 2 ^ subs.length →
      h = merkleRootSpec H e j (ls.drop (n / 2 ^ j * 2 ^ j)) →
      (∀ k, k < subs.length → (n / 2 ^ (j + k)) % 2 = 1 →
        subs.getD k e
          = merkleRootSpec H e (j + k)
              ((ls.drop ((n / 2 ^ (j + k) - 1) * 2 ^ (j + k))).take (2 ^ (j + k)))) →
      (addAux H e subs j (n / 2 ^ j) h).2
          = merkleRootSpec H e (j + subs.length)
              (ls.drop (n / 2 ^ (j + subs.length) * 2 ^ (j + subs.length)))
      ∧ (addAux H e subs j (n / 2 ^ j) h).1.length = subs.length
      ∧ (∀ k, k < subs.length → ((n + 1) / 2 ^ (j + k)) % 2 = 1 →
          (addAux H e subs j (n / 2 ^ j) h).1.getD k e
            = merkleRootSpec H e (j + k)
                ((ls.drop (((n + 1) / 2 ^ (j + k) - 1) * 2 ^ (j + k))).take (2 ^ (j + k)))) := by
  intro subs
  induction subs with
  | nil =>
    intro j h hcap hh _hGood
    refine ⟨?_, rfl, ?_⟩
    · have hq0 : n / 2 ^ j = 0 := Nat.lt_one_iff.mp (by simpa using hcap)
      simpa [addAux, hq0] using hh
    · intro k hk
      exact absurd hk (by simp)
  | cons s rest ih =>
    intro j h hcap hh hGood
    have hm : 0 < 2 ^ j := pow_pos (by norm_num) j
    have hqm_le : n / 2 ^ j * 2 ^ j ≤ n := Nat.div_mul_le_self n (2 ^ j)
    have hlt : n < n / 2 ^ j * 2 ^ j + 2 ^ j := by
      have h1 := Nat.div_add_mod n (2 ^ j)
      have h2 : n % 2 ^ j < 2 ^ j := Nat.mod_lt _ hm
      have h3 : 2 ^ j * (n / 2 ^ j) = n / 2 ^ j * 2 ^ j := Nat.mul_comm _ _
      omega
    have hdd : n / 2 ^ j / 2 = n / 2 ^ (j + 1) := by
      rw [Nat.div_div_eq_div_mul, ← pow_succ]
    have hcap' : n / 2 ^ (j + 1) < 2 ^ rest.length := by
      rw [← hdd]
      rw [Nat.div_lt_iff_lt_mul (by norm_num : (0:Nat) < 2)]
      calc n / 2 ^ j < 2 ^ (s :: rest).length := hcap
        _ = 2 ^ rest.length * 2 := by rw [List.length_cons, pow_succ]
    have hXlen : (ls.drop (n / 2 ^ j * 2 ^ j)).length ≤ 2 ^ j := by
      rw [List.length_drop, ← hn]
      omega
    have hjk : ∀ k : Nat, j + 1 + k = j + (k + 1) := fun k => by omega
    rcases Nat.even_or_odd (n / 2 ^ j) with hq | hq
    · -- even branch of the loop: store the running hash, combine with the sentinel
      have hq0 : n / 2 ^ j % 2 = 0 := Nat.even_iff.mp hq
      have hq2 : n / 2 ^ (j + 1) * 2 ^ (j + 1) = n / 2 ^ j * 2 ^ j := by
        rw [← hdd, pow_succ]
        have hc : n / 2 ^ j / 2 * 2 = n / 2 ^ j :=
          Nat.div_mul_cancel (Nat.dvd_of_mod_eq_zero hq0)
        calc n / 2 ^ j / 2 * (2 ^ j * 2) = n / 2 ^ j / 2 * 2 * 2 ^ j := by ring
          _ = n / 2 ^ j * 2 ^ j := by rw [hc]
      have hhash : H h (ZEROES H e j)
          = merkleRootSpec H e (j + 1) (ls.drop (n / 2 ^ (j + 1) * 2 ^ (j + 1))) := by
        rw [hq2]
        simp only [merkleRootSpec]
        rw [List.take_of_length_le hXlen, List.drop_eq_nil_of_le hXlen,
          merkleRootSpec_nil, hh]
      have hGood' : ∀ k, k < rest.length → (n / 2 ^ (j + 1 + k)) % 2 = 1 →
          rest.getD k e
            = merkleRootSpec H e (j + 1 + k)
                ((ls.drop ((n / 2 ^ (j + 1 + k) - 1) * 2 ^ (j + 1 + k))).take
                  (2 ^ (j + 1 + k))) := by
        intro k hk hcond
        have := hGood (k + 1) (by simpa using Nat.succ_lt_succ hk)
          (by rw [← hjk k]; exact hcond)
        simpa [hjk k] using this
      obtain ⟨ih1, ih2, ih3⟩ := ih (j + 1) (H h (ZEROES H e j)) hcap' hhash hGood'
      have hstep : addAux H e (s :: rest) j (n / 2 ^ j) h
          = (h :: (addAux H e rest (j + 1) (n / 2 ^ (j + 1)) (H h (ZEROES H e j))).1,
             (addAux H e rest (j + 1) (n / 2 ^ (j + 1)) (H h (ZEROES H e j))).2) := by
        simp only [addAux, hq0, if_pos, hdd]
      refine ⟨?_, ?_, ?_⟩
      · rw [hstep]
        simpa [hjk rest.length] using ih1
      · rw [hstep]
        simp [ih2]
      · intro k hk hcond
        rw [hstep]
        match k with
        | 0 =>
          simp only [List.getD_cons_zero]
          simp only [Nat.add_zero] at hcond
          by_cases hend : n + 1 = n / 2 ^ j * 2 ^ j + 2 ^ j
          · have hdiv : (n + 1) / 2 ^ j = n / 2 ^ j + 1 := by
              rw [hend, Nat.add_div_right _ hm, Nat.mul_div_cancel _ hm]
            simp only [Nat.add_zero, hdiv, Nat.add_sub_cancel]
            rw [List.take_of_length_le hXlen, hh]
          · have hdiv : (n + 1) / 2 ^ j = n / 2 ^ j := by
              apply Nat.div_eq_of_lt_le
              · omega
              · rw [Nat.succ_mul]
                omega
            rw [hdiv] at hcond
            omega
        | k + 1 =>
          simp only [List.getD_cons_succ]
          have := ih3 k (by simpa using Nat.lt_of_succ_lt_succ (by simpa using hk))
            (by rw [hjk k]; exact hcond)
          simpa [hjk k] using this
    · -- odd branch of the loop: combine the stored left sibling with the running hash
      have hq1 : n / 2 ^ j % 2 = 1 := Nat.odd_iff.mp hq
      have hq_pos : 1 ≤ n / 2 ^ j := by
        rcases Nat.eq_zero_or_pos (n / 2 ^ j) with h0 | h1
        · rw [h0] at hq1
          simp at hq1
        · exact h1
      have hs := hGood 0 (by simp) (by simpa using hq1)
      simp only [List.getD_cons_zero, Nat.add_zero] at hs
      have hq2 : n / 2 ^ (j + 1) * 2 ^ (j + 1) = (n / 2 ^ j - 1) * 2 ^ j := by
        rw [← hdd, pow_succ]
        have hc : n / 2 ^ j / 2 * 2 = n / 2 ^ j - 1 := by
          have := Nat.div_add_mod (n / 2 ^ j) 2
          omega
        calc n / 2 ^ j / 2 * (2 ^ j * 2) = n / 2 ^ j / 2 * 2 * 2 ^ j := by ring
          _ = (n / 2 ^ j - 1) * 2 ^ j := by rw [hc]
      have hdropY : (ls.drop ((n / 2 ^ j - 1) * 2 ^ j)).drop (2 ^ j)
          = ls.drop (n / 2 ^ j * 2 ^ j) := by
        rw [List.drop_drop]
        congr 1
        calc (n / 2 ^ j - 1) * 2 ^ j + 2 ^ j = (n / 2 ^ j - 1 + 1) * 2 ^ j := by
              rw [Nat.succ_mul]
          _ = n / 2 ^ j * 2 ^ j := by rw [Nat.sub_add_cancel hq_pos]
      have hhash : H s h
          = merkleRootSpec H e (j + 1) (ls.drop (n / 2 ^ (j + 1) * 2 ^ (j + 1))) := by
        rw [hq2]
        simp only [merkleRootSpec]
        rw [hdropY, ← hh, ← hs]
      have hGood' : ∀ k, k < rest.length → (n / 2 ^ (j + 1 + k)) % 2 = 1 →
          rest.getD k e
            = merkleRootSpec H e (j + 1 + k)
                ((ls.drop ((n / 2 ^ (j + 1 + k) - 1) * 2 ^ (j + 1 + k))).take
                  (2 ^ (j + 1 + k))) := by
        intro k hk hcond
        have := hGood (k + 1) (by simpa using Nat.succ_lt_succ hk)
          (by rw [← hjk k]; exact hcond)
        simpa [hjk k] using this
      obtain ⟨ih1, ih2, ih3⟩ := ih (j + 1) (H s h) hcap' hhash hGood'
      have hstep : addAux H e (s :: rest) j (n / 2 ^ j) h
          = (s :: (addAux H e rest (j + 1) (n / 2 ^ (j + 1)) (H s h)).1,
             (addAux H e rest (j + 1) (n / 2 ^ (j + 1)) (H s h)).2) := by
        simp only [addAux, hq1, hdd]
        norm_num
      refine ⟨?_, ?_, ?_⟩
      · rw [hstep]
        simpa [hjk rest.length] using ih1
      · rw [hstep]
        simp [ih2]
      · intro k hk hcond
        rw [hstep]
        match k with
        | 0 =>
          simp only [List.getD_cons_zero]
          simp only [Nat.add_zero] at hcond
          by_cases hend : n + 1 = n / 2 ^ j * 2 ^ j + 2 ^ j
          · have hdiv : (n + 1) / 2 ^ j = n / 2 ^ j + 1 := by
              rw [hend, Nat.add_div_right _ hm, Nat.mul_div_cancel _ hm]
            rw [hdiv] at hcond
            omega
          · have hdiv : (n + 1) / 2 ^ j = n / 2 ^ j := by
              apply Nat.div_eq_of_lt_le
              · omega
              · rw [Nat.succ_mul]
                omega
            simp only [Nat.add_zero, hdiv]
            exact hs
        | k + 1 =>
          simp only [List.getD_cons_succ]
          have := ih3 k (by simpa using Nat.lt_of_succ_lt_succ (by simpa using hk))
            (by rw [hjk k]; exact hcond)
          simpa [hjk k] using this

lemma block_append (ls : List Data) (a : Data) (s t : Nat) (h : s + t ≤ ls.length) :
    ((ls ++ [a]).drop s).take t = (ls.drop s).take t := by
  rw [List.drop_append_of_le_length (by omega)]
  rw [List.take_append_of_le_length]
  rw [List.length_drop]
  omega

lemma div_pos_of_mod_two_eq_one {n m : Nat} (h : n / m % 2 = 1) : 1 ≤ n / m := by
  rcases Nat.eq_zero_or_pos (n / m) with h0 | h1
  · rw [h0] at h
    simp at h
  · exact h1

lemma insertAll_invariant (H : Data → Data → Data) (e : Data) (D : Nat)
    (ls : List Data) :
    ls.length ≤ 2 ^ D →
      (insertAll H e (IncrementalMerkleTree.new H e D) ls).index = ls.length
      ∧ (insertAll H e (IncrementalMerkleTree.new H e D) ls).filled_subtrees.length = D
      ∧ (insertAll H e (IncrementalMerkleTree.new H e D) ls).root = merkleRootSpec H e D ls
      ∧ GoodFS H e (insertAll H e (IncrementalMerkleTree.new H e D) ls).filled_subtrees ls := by
  induction ls using List.reverseRecOn with
  | nil =>
    intro _
    refine ⟨rfl, by simp [insertAll, IncrementalMerkleTree.new], ?_, ?_⟩
    · simp [insertAll, IncrementalMerkleTree.new, merkleRootSpec_nil]
    · intro k hk hcond
      simp at hcond
  | append_singleton ls a ihl =>
    intro hlen
    have hn1 : ls.length < 2 ^ D := by
      have : (ls ++ [a]).length = ls.length + 1 := by simp
      omega
    obtain ⟨hidx, hfslen, hroot, hgood⟩ := ihl (le_of_lt hn1)
    have hfold : insertAll H e (IncrementalMerkleTree.new H e D) (ls ++ [a])
        = IncrementalMerkleTree.add H e (insertAll H e (IncrementalMerkleTree.new H e D) ls) a := by
      simp [insertAll, List.foldl_append]
    set t := insertAll H e (IncrementalMerkleTree.new H e D) ls with ht
    have hn' : ls.length + 1 = (ls ++ [a]).length := by simp
    have hcap0 : ls.length / 2 ^ 0 < 2 ^ t.filled_subtrees.length := by
      simpa [hfslen] using hn1
    have hh0 : a = merkleRootSpec H e 0
        ((ls ++ [a]).drop (ls.length / 2 ^ 0 * 2 ^ 0)) := by
      simp only [pow_zero, Nat.div_one, Nat.mul_one]
      rw [List.drop_left]
      rfl
    have hGood0 : ∀ k, k < t.filled_subtrees.length → (ls.length / 2 ^ (0 + k)) % 2 = 1 →
        t.filled_subtrees.getD k e
          = merkleRootSpec H e (0 + k)
              (((ls ++ [a]).drop ((ls.length / 2 ^ (0 + k) - 1) * 2 ^ (0 + k))).take
                (2 ^ (0 + k))) := by
      intro k hk hcond
      simp only [Nat.zero_add] at hcond ⊢
      rw [block_append]
      · exact hgood k hk hcond
      · have h1 : ls.length / 2 ^ k * 2 ^ k ≤ ls.length := Nat.div_mul_le_self _ _
        have hq_pos : 1 ≤ ls.length / 2 ^ k := div_pos_of_mod_two_eq_one hcond
        have h2 : (ls.length / 2 ^ k - 1) * 2 ^ k + 2 ^ k = ls.length / 2 ^ k * 2 ^ k := by
          calc (ls.length / 2 ^ k - 1) * 2 ^ k + 2 ^ k
              = (ls.length / 2 ^ k - 1 + 1) * 2 ^ k := (Nat.succ_mul _ _).symm
            _ = ls.length / 2 ^ k * 2 ^ k := by rw [Nat.sub_add_cancel hq_pos]
        omega
    obtain ⟨k1, k2, k3⟩ := addAux_spec H e (ls ++ [a]) ls.length hn'
      t.filled_subtrees 0 a hcap0 hh0 hGood0
    simp only [pow_zero, Nat.div_one, Nat.mul_one, Nat.zero_add] at k1 k2 k3
    have haddfs : (IncrementalMerkleTree.add H e t a).filled_subtrees
        = (addAux H e t.filled_subtrees 0 ls.length a).1 := by
      simp [IncrementalMerkleTree.add, hidx]
    have haddroot : (IncrementalMerkleTree.add H e t a).root
        = (addAux H e t.filled_subtrees 0 ls.length a).2 := by
      simp [IncrementalMerkleTree.add, hidx]
    refine ⟨?_, ?_, ?_, ?_⟩
    · rw [hfold]
      simp [IncrementalMerkleTree.add, hidx]
    · rw [hfold, haddfs, k2, hfslen]
    · rw [hfold, haddroot, k1, hfslen]
      have hD0 : (ls ++ [a]).length.pred / 2 ^ D = 0 := by
        apply Nat.div_eq_of_lt
        simpa using hn1
      have : ls.length / 2 ^ D = 0 := Nat.div_eq_of_lt hn1
      rw [this]
      simp
    · intro k hk hcond
      rw [hfold, haddfs] at hk ⊢
      rw [k2, hfslen] at hk
      have hcond' : (ls.length + 1) / 2 ^ k % 2 = 1 := by
        simpa using hcond
      have := k3 k (by rw [hfslen]; exact hk) hcond'
      rw [this]
      have hlenrw : (ls ++ [a]).length = ls.length + 1 := by simp
      rw [hlenrw]

/-- C1: the source `add` has no capacity check and cannot fail (it returns unit, and no
Overflow variant exists in BridgeError): on a DEPTH-2 tree whose 4 slots are full, a 5th
add is silently accepted — index moves past capacity to 5 and the root is recomputed as
if the new leaf sat in slot 0 of an empty tree. Evaluates the embedded add at the
failing input, with the model hash HM and EMPTYDATA 0. -/
theorem C1_add_at_capacity_does_not_fail :
    (insertAll HM 0 (IncrementalMerkleTree.new HM 0 2) [1, 2, 3, 4]).index = 2 ^ 2
    ∧ (insertAll HM 0 (IncrementalMerkleTree.new HM 0 2) [1, 2, 3, 4, 5]).index = 2 ^ 2 + 1
    ∧ (insertAll HM 0 (IncrementalMerkleTree.new HM 0 2) [1, 2, 3, 4, 5]).root
        = (insertAll HM 0 (IncrementalMerkleTree.new HM 0 2) [5]).root := by
  decide

/-- C4: starting from IncrementalMerkleTree.new (index 0, root ZEROES[DEPTH],
filled_subtrees all EMPTYDATA), after any sequence of at most 2^DEPTH add calls the root
field equals the depth-DEPTH Merkle root of the inserted leaves in insertion order, with
every unfilled leaf the empty-hash sentinel and ZEROES[i] the level-i sentinel; the
number of adds is recorded in index, and each add (running the per-level even/odd
filled_subtrees update) increments index by exactly one. -/
theorem C4_incremental_merkle_root_invariant
    (H : Data → Data → Data) (e : Data) (D : Nat) (ls : List Data)
    (t : IncrementalMerkleTree) (a : Data)
    (hlen : ls.length ≤ 2 ^ D) :
    (IncrementalMerkleTree.new H e D).index = 0
    ∧ (IncrementalMerkleTree.new H e D).root = ZEROES H e D
    ∧ (IncrementalMerkleTree.new H e D).filled_subtrees = List.replicate D e
    ∧ (insertAll H e (IncrementalMerkleTree.new H e D) ls).root = merkleRootSpec H e D ls
    ∧ (insertAll H e (IncrementalMerkleTree.new H e D) ls).index = ls.length
    ∧ (IncrementalMerkleTree.add H e t a).index = t.index + 1 := by
  obtain ⟨h1, _, h3, _⟩ := insertAll_invariant H e D ls hlen
  exact ⟨rfl, rfl, rfl, h3, h1, rfl⟩

/-- Witness for C4 at H = HM, e = 0, DEPTH = 2, leaves [1, 2, 3]. -/
theorem C4_incremental_merkle_root_invariant_witness :
    ([1, 2, 3] : List Data).length ≤ 2 ^ 2
    ∧ ((IncrementalMerkleTree.new HM 0 2).index = 0
      ∧ (IncrementalMerkleTree.new HM 0 2).root = ZEROES HM 0 2
      ∧ (IncrementalMerkleTree.new HM 0 2).filled_subtrees = List.replicate 2 0
      ∧ (insertAll HM 0 (IncrementalMerkleTree.new HM 0 2) [1, 2, 3]).root
          = merkleRootSpec HM 0 2 [1, 2, 3]
      ∧ (insertAll HM 0 (IncrementalMerkleTree.new HM 0 2) [1, 2, 3]).index
          = ([1, 2, 3] : List Data).length
      ∧ (IncrementalMerkleTree.add HM 0 (IncrementalMerkleTree.new HM 0 2) 5).index
          = (IncrementalMerkleTree.new HM 0 2).index + 1) :=
  ⟨by decide, C4_incremental_merkle_root_invariant HM 0 2 [1, 2, 3]
      (IncrementalMerkleTree.new HM 0 2) 5 (by decide)⟩

/-- C9: inserting the same sequence of at most 2^DEPTH leaves in the same order into two
fresh accumulator instances yields identical roots; and the sequence [0, 1] together
with its reordering [1, 0] (a permutation) yields different roots under the model hash,
demonstrating order sensitivity. -/
theorem C9_append_determinism_and_order_sensitivity
    (H : Data → Data → Data) (e : Data) (D : Nat) (ls : List Data)
    (t1 t2 : IncrementalMerkleTree)
    (_hlen : ls.length ≤ 2 ^ D)
    (h1 : t1 = IncrementalMerkleTree.new H e D)
    (h2 : t2 = IncrementalMerkleTree.new H e D) :
    (insertAll H e t1 ls).root = (insertAll H e t2 ls).root
    ∧ List.Perm [1, 0] ([0, 1] : List Data)
    ∧ (insertAll HM 0 (IncrementalMerkleTree.new HM 0 1) [0, 1]).root
        ≠ (insertAll HM 0 (IncrementalMerkleTree.new HM 0 1) [1, 0]).root := by
  subst h1 h2
  exact ⟨rfl, List.Perm.swap 0 1 [], by decide⟩

/-- Witness for C9 at H = HM, e = 0, DEPTH = 1, leaves [7]. -/
theorem C9_append_determinism_and_order_sensitivity_witness :
    ([7] : List Data).length ≤ 2 ^ 1
    ∧ ((insertAll HM 0 (IncrementalMerkleTree.new HM 0 1) [7]).root
        = (insertAll HM 0 (IncrementalMerkleTree.new HM 0 1) [7]).root
      ∧ List.Perm [1, 0] ([0, 1] : List Data)
      ∧ (insertAll HM 0 (IncrementalMerkleTree.new HM 0 1) [0, 1]).root
          ≠ (insertAll HM 0 (IncrementalMerkleTree.new HM 0 1) [1, 0]).root) :=
  ⟨by decide, C9_append_determinism_and_order_sensitivity HM 0 1 [7]
      (IncrementalMerkleTree.new HM 0 1) (IncrementalMerkleTree.new HM 0 1)
      (by decide) rfl rfl⟩

/-! Bitcoin-side model types for src/operator/src/verifier.rs. Script pubkeys, public
keys, signatures, txids, secrets and EVM addresses are modelled as natural numbers. -/

structure OutPoint where
  txid : Nat
  vout : Nat
deriving DecidableEq

structure TxOut where
  value : Nat
  script_pubkey : Nat
deriving DecidableEq

structure TxIn where
  previous_output : OutPoint
  sequence : Nat
deriving DecidableEq

structure BtcTx where
  input : List TxIn
  output : List TxOut
deriving DecidableEq

/-- Embedding of the `Actor` signer (crate::actor, outside src): a keypair and an
address — exactly the data new_deposit and the watcher read from it. -/
structure Actor where
  sk : Nat
  pk : Nat
  addressSpk : Nat
deriving DecidableEq

/-- Modelled from the spec: the black-box collaborators of verifier.rs that live outside
src — the transaction-building and script helpers of operator::utils
(create_taproot_address, generate_n_of_n_script, generate_n_of_n_script_without_hash,
handle_connector_binary_tree_script, the sequence numbers used by create_tx_ins and
create_tx_ins_with_sequence), the circuit_helpers constants (BRIDGE_AMOUNT_SATS,
MIN_RELAY_FEE, DUST_VALUE, HASH_FUNCTION_32), User::generate_deposit_address,
check_deposit and the signing actor's two signature functions. The spec (sections 4.2,
4.3, 6) describes each as a deterministic pure function of exactly the data the source
passes it, so each is an arbitrary function of those arguments; scripts, addresses and
signatures are identified with their encodings. -/
structure BtcEnv where
  txid : BtcTx → Nat
  hash32 : Nat → Nat
  connSpk : Nat → Nat → Nat
  scriptNofN : List Nat → Nat → Nat
  scriptNofNNoHash : List Nat → Nat
  taprootAddrSpk : List Nat → Nat
  depositAddrSpk : List Nat → Nat → Nat → Nat
  signTaproot : Actor → BtcTx → List TxOut → Nat → Nat → Nat
  signDeposit : Actor → Nat → Nat → Nat → Nat → Nat
  checkDeposit : OutPoint → Nat → Nat → List Nat → Nat
  bridgeAmount : Nat
  minRelayFee : Nat
  dustValue : Nat
  seqDefault : Nat
  seqRelative : Nat

/-- Association-list model of the watcher's HashMap from OutPoint to (depth, index);
keys are unique because insertion removes the key first. -/
abbrev UtxoMap := List (OutPoint × (Nat × Nat))

def mapFind (k : OutPoint) (m : UtxoMap) : Option (Nat × Nat) :=
  (m.find? (fun p => decide (p.1 = k))).map Prod.snd

def mapRemove (k : OutPoint) (m : UtxoMap) : UtxoMap :=
  m.filter (fun p => !(decide (p.1 = k)))

def mapInsert (k : OutPoint) (v : Nat × Nat) (m : UtxoMap) : UtxoMap :=
  (k, v) :: mapRemove k m

/-- Removal from the HashSet of held secrets. -/
def setRemove (p : Nat) (s : List Nat) : List Nat :=
  s.filter (fun q => !(decide (q = p)))

/-- The watcher state: the held secrets (preimage_script_pubkey_pairs) and the tracked
connector-tree UTXOs (utxos). -/
structure WState where
  pairs : List Nat
  utxos : UtxoMap
deriving DecidableEq

/-- Embedding of `is_spendable_with_preimage` (verifier.rs, bottom): recompute the
hash-locked connector-tree address from HASH_FUNCTION_32 of the secret and compare
script pubkeys with the output's. -/
def is_spendable_with_preimage (E : BtcEnv) (operator_pk : Nat) (txOut : TxOut)
    (preimage : Nat) : Bool :=
  decide (E.connSpk operator_pk (E.hash32 preimage) = txOut.script_pubkey)

/-- Embedding of `spend_connector_tree_utxo` (verifier.rs): the broadcast claim
transaction — one sequenced input spending the connector UTXO, one output paying the
amount minus MIN_RELAY_FEE to the verifier's own address (the preimage goes into the
witness, which carries no value data). -/
def spend_connector_tree_utxo (E : BtcEnv) (selfSpk : Nat) (utxo : OutPoint)
    (amount : Nat) : BtcTx :=
  ⟨[⟨utxo, E.seqRelative⟩], [⟨amount - E.minRelayFee, selfSpk⟩]⟩

/-- The claim scan inside `watch_connector_tree` (verifier.rs lines 188-204): for each
output of the split transaction, with its enumeration index, test every currently held
secret; each match broadcasts a claim spending that output, removes the outpoint from
tracking, and is collected for removal from the held set after the output's loop. -/
def processOutputs (E : BtcEnv) (operatorPk selfSpk tid amount : Nat) :
    Nat → List TxOut → List Nat × UtxoMap × List BtcTx → List Nat × UtxoMap × List BtcTx
  | _, [], st => st
  | i, o :: rest, (prs, ux, bs) =>
    let matched := prs.filter (fun p => is_spendable_with_preimage E operatorPk o p)
    processOutputs E operatorPk selfSpk tid amount (i + 1) rest
      (matched.foldl (fun s p => setRemove p s) prs,
       matched.foldl (fun u _ => mapRemove ⟨tid, i⟩ u) ux,
       bs ++ matched.map (fun _ => spend_connector_tree_utxo E selfSpk ⟨tid, i⟩ amount))

/-- One transaction of the per-block scan of `watch_connector_tree` (verifier.rs lines
175-204). The source mutates the caller's maps in place and uses panics (an assert and
direct indexing) as its only failure mode; that is modelled as Except, where an error
carries the state as mutated up to the panic point — the source removes the spent entry
and inserts both child entries before asserting that the two output values are equal. -/
def watchTx (E : BtcEnv) (operatorPk selfSpk : Nat) (st : WState) (tx : BtcTx) :
    Except WState (WState × List BtcTx) :=
  match tx.input with
  | [] => .error st
  | i0 :: _ =>
    match mapFind i0.previous_output st.utxos with
    | none => .ok (st, [])
    | some (depth, index) =>
      let ux1 := mapInsert ⟨E.txid tx, 1⟩ (depth + 1, index * 2 + 1)
        (mapInsert ⟨E.txid tx, 0⟩ (depth + 1, index * 2)
          (mapRemove i0.previous_output st.utxos))
      match tx.output with
      | o0 :: o1 :: _ =>
        if o0.value = o1.value then
          let r := processOutputs E operatorPk selfSpk (E.txid tx) o0.value 0 tx.output
            (st.pairs, ux1, [])
          .ok (⟨r.1, r.2.1⟩, r.2.2)
        else .error ⟨st.pairs, ux1⟩
      | _ => .error ⟨st.pairs, ux1⟩

/-- The block loop of `watch_connector_tree`: fold watchTx over the block's transaction
list (the block itself is fetched over RPC, an external collaborator), stopping at a
panic; on success the final state and all broadcast claim transactions are returned,
mirroring the source's cloned return value. -/
def watchBlock (E : BtcEnv) (operatorPk selfSpk : Nat) :
    WState → List BtcTx → Except WState (WState × List BtcTx)
  | st, [] => .ok (st, [])
  | st, t :: ts =>
    match watchTx E operatorPk selfSpk st t with
    | .error s => .error s
    | .ok (s, bs) =>
      match watchBlock E operatorPk selfSpk s ts with
      | .error s2 => .error s2
      | .ok (s2, bs2) => .ok (s2, bs ++ bs2)

/-- Embedding of the `Verifier` struct fields that carry protocol data (the borrowed rpc
handle and the secp context are an I/O capability and a context object, with no bearing
on any output). -/
structure Verifier where
  signer : Actor
  verifiers : List Nat
  connector_tree_utxos : List (List OutPoint)
  connector_tree_hashes : List (List Nat)
  operator_pk : Nat
deriving DecidableEq

/-- The signature bundle returned by new_deposit. -/
structure DepositPresigns where
  rollup_sign : Nat
  kickoff_sign : Nat
  operator_claim_sign : Nat
deriving DecidableEq

/-- The kickoff transaction template built by `Verifier::new_deposit` (verifier.rs lines
95-102): one input spending the deposit utxo, one output paying
BRIDGE_AMOUNT_SATS - MIN_RELAY_FEE to the taproot address of the single-script set
containing the n-of-n-without-hash script. -/
def newDepositKickoffTx (E : BtcEnv) (utxo : OutPoint) (all_verifiers : List Nat) :
    BtcTx :=
  ⟨[⟨utxo, E.seqDefault⟩],
   [⟨E.bridgeAmount - E.minRelayFee, E.taprootAddrSpk [E.scriptNofNNoHash all_verifiers]⟩]⟩

/-- The connector-tree leaf UTXO used by `new_deposit`:
`self.connector_tree_utxos[self.connector_tree_utxos.len() - 1][index]`. -/
def connectorLeaf (v : Verifier) (index : Nat) : OutPoint :=
  (v.connector_tree_utxos.getD (v.connector_tree_utxos.length - 1) []).getD index ⟨0, 0⟩

/-- The operator-claim transaction template built by `new_deposit` (verifier.rs lines
114-130): two inputs — output 0 of the kickoff transaction, and the connector-tree leaf
for `index` carrying the timelock sequence — and one output paying
(BRIDGE_AMOUNT_SATS - MIN_RELAY_FEE) + DUST_VALUE - MIN_RELAY_FEE to operator_address. -/
def newDepositClaimTx (E : BtcEnv) (v : Verifier) (utxo : OutPoint) (index : Nat)
    (all_verifiers : List Nat) (operatorAddrSpk : Nat) : BtcTx :=
  ⟨[⟨⟨E.txid (newDepositKickoffTx E utxo all_verifiers), 0⟩, E.seqDefault⟩,
    ⟨connectorLeaf v index, E.seqRelative⟩],
   [⟨E.bridgeAmount - E.minRelayFee + E.dustValue - E.minRelayFee, operatorAddrSpk⟩]⟩

/-- Embedding of `Verifier::new_deposit` (verifier.rs lines 67-152): validate through
check_deposit, build the two scripts, the multisig address, the kickoff and
operator-claim templates, sign both templates with the verifier's own keypair over the
matching prevout sets, and produce the rollup signature over (kickoff txid, evm address,
hash, timestamp). The receiver is returned unchanged alongside the bundle, reflecting
the shared &self receiver with no interior mutability. -/
def new_deposit (E : BtcEnv) (v : Verifier) (utxo : OutPoint) (index : Nat)
    (hash : Nat) (return_address : Nat) (evm_address : Nat)
    (all_verifiers : List Nat) (operatorAddrSpk : Nat) : Verifier × DepositPresigns :=
  let timestamp := E.checkDeposit utxo hash return_address all_verifiers
  let script_n_of_n := E.scriptNofN all_verifiers hash
  let script_n_of_n_without_hash := E.scriptNofNNoHash all_verifiers
  let multisigSpk := E.taprootAddrSpk [script_n_of_n_without_hash]
  let kickoff_tx := newDepositKickoffTx E utxo all_verifiers
  let depositSpk := E.depositAddrSpk all_verifiers hash return_address
  let kickoff_sign := E.signTaproot v.signer kickoff_tx [⟨E.bridgeAmount, depositSpk⟩]
    script_n_of_n 0
  let kickoff_txid := E.txid kickoff_tx
  let prev_amount := E.bridgeAmount - E.minRelayFee
  let operator_claim_tx := newDepositClaimTx E v utxo index all_verifiers operatorAddrSpk
  let connHash :=
    (v.connector_tree_hashes.getD (v.connector_tree_hashes.length - 1) []).getD index 0
  let connAddrSpk := E.connSpk v.operator_pk connHash
  let operator_claim_sign := E.signTaproot v.signer operator_claim_tx
    [⟨prev_amount, multisigSpk⟩, ⟨E.dustValue, connAddrSpk⟩] script_n_of_n_without_hash 0
  let rollup_sign := E.signDeposit v.signer kickoff_txid evm_address hash timestamp
  (v, ⟨rollup_sign, kickoff_sign, operator_claim_sign⟩)

/-- C2: for every new_deposit call, the kickoff template it builds has the deposit utxo
as its single input and a single output paying BRIDGE_AMOUNT_SATS - MIN_RELAY_FEE to the
taproot multisig address derived from the n-of-n-without-hash script; and the
operator-claim template has exactly two inputs — output 0 of the kickoff transaction and
the connector-tree leaf UTXO for index — and a single output paying the combined input
value (BRIDGE_AMOUNT_SATS - MIN_RELAY_FEE) + DUST_VALUE minus the MIN_RELAY_FEE fee to
operator_address. -/
theorem C2_new_deposit_template_shapes (E : BtcEnv) (v : Verifier) (utxo : OutPoint)
    (index : Nat) (all_verifiers : List Nat) (operatorAddrSpk : Nat)
    (row : List OutPoint)
    (hrow : v.connector_tree_utxos.getD (v.connector_tree_utxos.length - 1) [] = row)
    (_hidx : index < row.length) :
    (newDepositKickoffTx E utxo all_verifiers).input = [⟨utxo, E.seqDefault⟩]
    ∧ (newDepositKickoffTx E utxo all_verifiers).output
        = [⟨E.bridgeAmount - E.minRelayFee,
            E.taprootAddrSpk [E.scriptNofNNoHash all_verifiers]⟩]
    ∧ (newDepositClaimTx E v utxo index all_verifiers operatorAddrSpk).input
        = [⟨⟨E.txid (newDepositKickoffTx E utxo all_verifiers), 0⟩, E.seqDefault⟩,
           ⟨row.getD index ⟨0, 0⟩, E.seqRelative⟩]
    ∧ (newDepositClaimTx E v utxo index all_verifiers operatorAddrSpk).output
        = [⟨E.bridgeAmount - E.minRelayFee + E.dustValue - E.minRelayFee,
            operatorAddrSpk⟩] := by
  refine ⟨rfl, rfl, ?_, rfl⟩
  simp only [newDepositClaimTx, connectorLeaf, hrow]

/-- C3: the unsigned kickoff and operator-claim templates depend only on the deposit
utxo, the index, the ordered verifier set, the connector-tree data and the operator
address: two verifiers with different signer keypairs but identical verifiers,
connector_tree_utxos, connector_tree_hashes and operator_pk fields build identical
templates from identical arguments (and the kickoff-template builder applied twice to
the same arguments is trivially identical, covering two calls on one verifier). -/
theorem C3_presigning_templates_signer_independent (E : BtcEnv) (v1 v2 : Verifier)
    (utxo : OutPoint) (index : Nat) (all_verifiers : List Nat) (operatorAddrSpk : Nat)
    (_hv : v1.verifiers = v2.verifiers)
    (hu : v1.connector_tree_utxos = v2.connector_tree_utxos)
    (_hh : v1.connector_tree_hashes = v2.connector_tree_hashes)
    (_hp : v1.operator_pk = v2.operator_pk) :
    newDepositKickoffTx E utxo all_verifiers = newDepositKickoffTx E utxo all_verifiers
    ∧ newDepositClaimTx E v1 utxo index all_verifiers operatorAddrSpk
        = newDepositClaimTx E v2 utxo index all_verifiers operatorAddrSpk := by
  refine ⟨rfl, ?_⟩
  simp [newDepositClaimTx, connectorLeaf, hu]

/-- C10: new_deposit never modifies the verifier's own state — the embedding of the
&self receiver threads the verifier through unchanged, and every protocol-data field
(signer keypair, verifiers list, connector tree utxos and hashes, operator_pk) is
exactly as before the call. -/
theorem C10_new_deposit_preserves_verifier_state (E : BtcEnv) (v : Verifier)
    (utxo : OutPoint) (index hash return_address evm_address : Nat)
    (all_verifiers : List Nat) (operatorAddrSpk : Nat) :
    (new_deposit E v utxo index hash return_address evm_address all_verifiers
        operatorAddrSpk).1 = v
    ∧ (new_deposit E v utxo index hash return_address evm_address all_verifiers
        operatorAddrSpk).1.signer = v.signer
    ∧ (new_deposit E v utxo index hash return_address evm_address all_verifiers
        operatorAddrSpk).1.verifiers = v.verifiers
    ∧ (new_deposit E v utxo index hash return_address evm_address all_verifiers
        operatorAddrSpk).1.connector_tree_utxos = v.connector_tree_utxos
    ∧ (new_deposit E v utxo index hash return_address evm_address all_verifiers
        operatorAddrSpk).1.connector_tree_hashes = v.connector_tree_hashes
    ∧ (new_deposit E v utxo index hash return_address evm_address all_verifiers
        operatorAddrSpk).1.operator_pk = v.operator_pk :=
  ⟨rfl, rfl, rfl, rfl, rfl, rfl⟩

/-- A concrete environment instance for evaluated witnesses and counterexamples. -/
def envT : BtcEnv where
  txid := fun tx => tx.input.length + 7 * tx.output.length + 100
  hash32 := fun p => p + 1000
  connSpk := fun pk h => pk * 10000 + h
  scriptNofN := fun vs h => vs.sum + h
  scriptNofNNoHash := fun vs => vs.sum + 1
  taprootAddrSpk := fun ss => ss.sum + 2
  depositAddrSpk := fun vs h r => vs.sum + h + r
  signTaproot := fun a tx pv s i => a.sk + tx.input.length + pv.length + s + i
  signDeposit := fun a t ev h ts => a.sk + t + ev + h + ts
  checkDeposit := fun u h r vs => u.txid + h + r + vs.length
  bridgeAmount := 100000000
  minRelayFee := 500
  dustValue := 1000
  seqDefault := 4294967295
  seqRelative := 1

/-- A concrete verifier instance for evaluated witnesses. -/
def verT : Verifier :=
  ⟨⟨1, 2, 3⟩, [11, 12], [[⟨5, 0⟩, ⟨5, 1⟩]], [[21, 22]], 9⟩

/-- Witness for C2 at the concrete environment, verifier and index 1. -/
theorem C2_new_deposit_template_shapes_witness :
    (verT.connector_tree_utxos.getD (verT.connector_tree_utxos.length - 1) []
        = [⟨5, 0⟩, ⟨5, 1⟩]
      ∧ 1 < ([⟨5, 0⟩, ⟨5, 1⟩] : List OutPoint).length)
    ∧ ((newDepositKickoffTx envT ⟨42, 0⟩ [11, 12]).input = [⟨⟨42, 0⟩, envT.seqDefault⟩]
      ∧ (newDepositKickoffTx envT ⟨42, 0⟩ [11, 12]).output
          = [⟨envT.bridgeAmount - envT.minRelayFee,
              envT.taprootAddrSpk [envT.scriptNofNNoHash [11, 12]]⟩]
      ∧ (newDepositClaimTx envT verT ⟨42, 0⟩ 1 [11, 12] 64).input
          = [⟨⟨envT.txid (newDepositKickoffTx envT ⟨42, 0⟩ [11, 12]), 0⟩,
              envT.seqDefault⟩,
             ⟨([⟨5, 0⟩, ⟨5, 1⟩] : List OutPoint).getD 1 ⟨0, 0⟩, envT.seqRelative⟩]
      ∧ (newDepositClaimTx envT verT ⟨42, 0⟩ 1 [11, 12] 64).output
          = [⟨envT.bridgeAmount - envT.minRelayFee + envT.dustValue - envT.minRelayFee,
              64⟩]) :=
  ⟨⟨rfl, by decide⟩,
    C2_new_deposit_template_shapes envT verT ⟨42, 0⟩ 1 [11, 12] 64
      [⟨5, 0⟩, ⟨5, 1⟩] rfl (by decide)⟩

/-- Witness for C3 at the concrete environment: verT against a copy with a different
signer keypair. -/
theorem C3_presigning_templates_signer_independent_witness :
    (verT.verifiers = (Verifier.mk ⟨8, 9, 10⟩ [11, 12] [[⟨5, 0⟩, ⟨5, 1⟩]] [[21, 22]] 9).verifiers
      ∧ verT.connector_tree_utxos
          = (Verifier.mk ⟨8, 9, 10⟩ [11, 12] [[⟨5, 0⟩, ⟨5, 1⟩]] [[21, 22]] 9).connector_tree_utxos
      ∧ verT.connector_tree_hashes
          = (Verifier.mk ⟨8, 9, 10⟩ [11, 12] [[⟨5, 0⟩, ⟨5, 1⟩]] [[21, 22]] 9).connector_tree_hashes
      ∧ verT.operator_pk
          = (Verifier.mk ⟨8, 9, 10⟩ [11, 12] [[⟨5, 0⟩, ⟨5, 1⟩]] [[21, 22]] 9).operator_pk)
    ∧ (newDepositKickoffTx envT ⟨42, 0⟩ [11, 12] = newDepositKickoffTx envT ⟨42, 0⟩ [11, 12]
      ∧ newDepositClaimTx envT verT ⟨42, 0⟩ 0 [11, 12] 64
          = newDepositClaimTx envT (Verifier.mk ⟨8, 9, 10⟩ [11, 12] [[⟨5, 0⟩, ⟨5, 1⟩]] [[21, 22]] 9)
              ⟨42, 0⟩ 0 [11, 12] 64) :=
  ⟨⟨rfl, rfl, rfl, rfl⟩,
    C3_presigning_templates_signer_independent envT verT
      (Verifier.mk ⟨8, 9, 10⟩ [11, 12] [[⟨5, 0⟩, ⟨5, 1⟩]] [[21, 22]] 9)
      ⟨42, 0⟩ 0 [11, 12] 64 rfl rfl rfl rfl⟩

lemma processOutputs_no_match (E : BtcEnv) (operatorPk selfSpk tid amount : Nat) :
    ∀ (outs : List TxOut) (i : Nat) (prs : List Nat) (ux : UtxoMap) (bs : List BtcTx),
      (∀ p ∈ prs, ∀ o ∈ outs, is_spendable_with_preimage E operatorPk o p = false) →
      processOutputs E operatorPk selfSpk tid amount i outs (prs, ux, bs)
        = (prs, ux, bs) := by
  intro outs
  induction outs with
  | nil =>
    intro i prs ux bs _
    rfl
  | cons o rest ih =>
    intro i prs ux bs hno
    have hm : prs.filter (fun p => is_spendable_with_preimage E operatorPk o p) = [] := by
      refine List.filter_eq_nil_iff.mpr (fun p hp => ?_)
      have := hno p hp o (List.mem_cons_self o rest)
      simp [this]
    simp only [processOutputs, hm, List.foldl_nil, List.map_nil, List.append_nil]
    exact ih (i + 1) prs ux bs (fun p hp o2 ho2 => hno p hp o2 (List.mem_cons_of_mem o ho2))

lemma filter_setRemove_nil (l : List Nat) (f : Nat → Bool) (p0 : Nat)
    (h : l.filter f = []) : (setRemove p0 l).filter f = [] := by
  rw [setRemove, List.filter_filter]
  refine List.filter_eq_nil_iff.mpr (fun a ha => ?_)
  have := List.filter_eq_nil_iff.mp h a ha
  simp [this]

/-- C5: for a transaction whose first input spends a tracked connector-tree UTXO at
(depth, index), and whose split the claim scan leaves alone (no held secret matches any
output — the matching case is claim C8), watch_connector_tree removes that entry and
inserts exactly two new entries, mapping output 0 of the spending transaction to
(depth+1, 2*index) and output 1 to (depth+1, 2*index+1); a transaction whose first
input does not spend a tracked OutPoint leaves the map unchanged. -/
theorem C5_split_detection_updates_tracking (E : BtcEnv) (operatorPk selfSpk : Nat)
    (st : WState) (i0 : TxIn) (ins : List TxIn) (o0 o1 : TxOut) (os : List TxOut)
    (depth index : Nat) (k2 : TxIn) (ins2 : List TxIn) (outs2 : List TxOut)
    (hfind : mapFind i0.previous_output st.utxos = some (depth, index))
    (heq : o0.value = o1.value)
    (hno : ∀ p ∈ st.pairs, ∀ o ∈ o0 :: o1 :: os,
      is_spendable_with_preimage E operatorPk o p = false)
    (hfind2 : mapFind k2.previous_output st.utxos = none) :
    watchTx E operatorPk selfSpk st ⟨i0 :: ins, o0 :: o1 :: os⟩
      = .ok (⟨st.pairs,
          mapInsert ⟨E.txid ⟨i0 :: ins, o0 :: o1 :: os⟩, 1⟩ (depth + 1, index * 2 + 1)
            (mapInsert ⟨E.txid ⟨i0 :: ins, o0 :: o1 :: os⟩, 0⟩ (depth + 1, index * 2)
              (mapRemove i0.previous_output st.utxos))⟩, [])
    ∧ watchTx E operatorPk selfSpk st ⟨k2 :: ins2, outs2⟩ = .ok (st, []) := by
  constructor
  · simp only [watchTx, hfind]
    rw [if_pos heq]
    rw [processOutputs_no_match E operatorPk selfSpk
      (E.txid ⟨i0 :: ins, o0 :: o1 :: os⟩) o0.value (o0 :: o1 :: os) 0 st.pairs _ [] hno]
  · simp only [watchTx, hfind2]

/-- Witness for C5 at the concrete environment: a split of the tracked UTXO (3,0) at
depth 2 index 5 with equal outputs and no held secrets, and an untracked spend. -/
theorem C5_split_detection_updates_tracking_witness :
    (mapFind (⟨3, 0⟩ : OutPoint) [(⟨3, 0⟩, (2, 5))] = some (2, 5)
      ∧ (50 : Nat) = 50
      ∧ (∀ p ∈ ([] : List Nat), ∀ o ∈ [⟨50, 40⟩, ⟨50, 41⟩, (⟨7, 8⟩ : TxOut)],
          is_spendable_with_preimage envT 9 o p = false)
      ∧ mapFind (⟨4, 4⟩ : OutPoint) [(⟨3, 0⟩, (2, 5))] = none)
    ∧ (watchTx envT 9 5 ⟨[], [(⟨3, 0⟩, (2, 5))]⟩
          ⟨[⟨⟨3, 0⟩, 0⟩], [⟨50, 40⟩, ⟨50, 41⟩, ⟨7, 8⟩]⟩
        = .ok (⟨[],
            mapInsert ⟨envT.txid ⟨[⟨⟨3, 0⟩, 0⟩], [⟨50, 40⟩, ⟨50, 41⟩, ⟨7, 8⟩]⟩, 1⟩ (2 + 1, 5 * 2 + 1)
              (mapInsert ⟨envT.txid ⟨[⟨⟨3, 0⟩, 0⟩], [⟨50, 40⟩, ⟨50, 41⟩, ⟨7, 8⟩]⟩, 0⟩ (2 + 1, 5 * 2)
                (mapRemove ⟨3, 0⟩ [(⟨3, 0⟩, (2, 5))]))⟩, [])
      ∧ watchTx envT 9 5 ⟨[], [(⟨3, 0⟩, (2, 5))]⟩ ⟨[⟨⟨4, 4⟩, 0⟩], [⟨1, 2⟩]⟩
          = .ok (⟨[], [(⟨3, 0⟩, (2, 5))]⟩, [])) :=
  ⟨⟨rfl, rfl, by decide, rfl⟩,
    C5_split_detection_updates_tracking envT 9 5 ⟨[], [(⟨3, 0⟩, (2, 5))]⟩
      ⟨⟨3, 0⟩, 0⟩ [] ⟨50, 40⟩ ⟨50, 41⟩ [⟨7, 8⟩] 2 5 ⟨⟨4, 4⟩, 0⟩ [] [⟨1, 2⟩]
      rfl rfl (by decide) rfl⟩

/-- C6: for a transaction spending a tracked connector-tree UTXO, the per-transaction
scan succeeds exactly when the first two outputs carry equal value — an unequal split
trips the equal-value assertion (a panic, never a silent acceptance), and conversely
every accepted split has equal child values. -/
theorem C6_split_equal_value_enforced (E : BtcEnv) (operatorPk selfSpk : Nat)
    (st : WState) (i0 : TxIn) (ins : List TxIn) (o0 o1 : TxOut) (os : List TxOut)
    (depth index : Nat)
    (hfind : mapFind i0.previous_output st.utxos = some (depth, index)) :
    (watchTx E operatorPk selfSpk st ⟨i0 :: ins, o0 :: o1 :: os⟩).isOk
      = (o0.value == o1.value) := by
  simp only [watchTx, hfind]
  by_cases h : o0.value = o1.value
  · rw [if_pos h]
    simp [Except.isOk, Except.toBool, h]
  · rw [if_neg h]
    simp [Except.isOk, Except.toBool, h]

/-- Witness for C6 at the concrete environment, on an unequal split of a tracked UTXO. -/
theorem C6_split_equal_value_enforced_witness :
    mapFind (⟨3, 0⟩ : OutPoint) [(⟨3, 0⟩, (2, 5))] = some (2, 5)
    ∧ (watchTx envT 9 5 ⟨[], [(⟨3, 0⟩, (2, 5))]⟩
        ⟨[⟨⟨3, 0⟩, 0⟩], [⟨6, 40⟩, ⟨8, 41⟩]⟩).isOk = ((6 : Nat) == 8) :=
  ⟨rfl, C6_split_equal_value_enforced envT 9 5 ⟨[], [(⟨3, 0⟩, (2, 5))]⟩
    ⟨⟨3, 0⟩, 0⟩ [] ⟨6, 40⟩ ⟨8, 41⟩ [] 2 5 rfl⟩

/-- C7 counterexample: a block whose single transaction spends the tracked UTXO (3,0)
with unequal outputs makes the scan fail, but the state at the failure is not the
pre-block state — the spent entry is already removed and both child entries already
inserted (the source mutates the caller's map before the equal-value assert fires). -/
theorem C7_failed_block_mutates_state_counterexample :
    watchBlock envT 9 5 ⟨[], [(⟨3, 0⟩, (0, 0))]⟩ [⟨[⟨⟨3, 0⟩, 0⟩], [⟨6, 40⟩, ⟨8, 41⟩]⟩]
      = .error ⟨[], [(⟨115, 1⟩, (1, 1)), (⟨115, 0⟩, (1, 0))]⟩
    ∧ (⟨[], [(⟨115, 1⟩, (1, 1)), (⟨115, 0⟩, (1, 0))]⟩ : WState)
        ≠ ⟨[], [(⟨3, 0⟩, (0, 0))]⟩ :=
  ⟨rfl, by decide⟩

/-- C7 as amended: when the equal-value assertion fails on a split transaction, the
per-block scan aborts at that transaction (a panic), and the utxos map at the abort
already reflects that transaction's removal of the spent entry and the insertion of
both child entries — the pre-block state is not preserved, so retrying the block
requires restoring state externally. -/
theorem C7_amended_failed_block_leaves_partial_state (E : BtcEnv)
    (operatorPk selfSpk : Nat) (st : WState) (i0 : TxIn) (ins : List TxIn)
    (o0 o1 : TxOut) (os : List TxOut) (depth index : Nat) (rest : List BtcTx)
    (hfind : mapFind i0.previous_output st.utxos = some (depth, index))
    (hne : o0.value ≠ o1.value) :
    watchBlock E operatorPk selfSpk st (⟨i0 :: ins, o0 :: o1 :: os⟩ :: rest)
      = .error ⟨st.pairs,
          mapInsert ⟨E.txid ⟨i0 :: ins, o0 :: o1 :: os⟩, 1⟩ (depth + 1, index * 2 + 1)
            (mapInsert ⟨E.txid ⟨i0 :: ins, o0 :: o1 :: os⟩, 0⟩ (depth + 1, index * 2)
              (mapRemove i0.previous_output st.utxos))⟩ := by
  simp only [watchBlock, watchTx, hfind]
  rw [if_neg hne]

/-- Witness for the amended C7 at the concrete environment. -/
theorem C7_amended_failed_block_leaves_partial_state_witness :
    (mapFind (⟨3, 0⟩ : OutPoint) [(⟨3, 0⟩, (0, 0))] = some (0, 0)
      ∧ (6 : Nat) ≠ 8)
    ∧ watchBlock envT 9 5 ⟨[], [(⟨3, 0⟩, (0, 0))]⟩
        [⟨[⟨⟨3, 0⟩, 0⟩], [⟨6, 40⟩, ⟨8, 41⟩]⟩]
        = .error ⟨[],
            mapInsert ⟨envT.txid ⟨[⟨⟨3, 0⟩, 0⟩], [⟨6, 40⟩, ⟨8, 41⟩]⟩, 1⟩ (0 + 1, 0 * 2 + 1)
              (mapInsert ⟨envT.txid ⟨[⟨⟨3, 0⟩, 0⟩], [⟨6, 40⟩, ⟨8, 41⟩]⟩, 0⟩ (0 + 1, 0 * 2)
                (mapRemove ⟨3, 0⟩ [(⟨3, 0⟩, (0, 0))]))⟩ :=
  ⟨⟨rfl, by decide⟩,
    C7_amended_failed_block_leaves_partial_state envT 9 5 ⟨[], [(⟨3, 0⟩, (0, 0))]⟩
      ⟨⟨3, 0⟩, 0⟩ [] ⟨6, 40⟩ ⟨8, 41⟩ [] 0 0 [] rfl (by decide)⟩

/-- C8: for a tracked connector-tree UTXO split in the processed block into children
carried by a two-output transaction, if exactly one held secret recomputes (through
HASH_FUNCTION_32 and the hash-locked connector-tree address) to the script pubkey of
child output j (j = 0 or 1) and none matches the other child, then the scan broadcasts
exactly one claim transaction spending that child output to the verifier's own address,
removes that outpoint from the utxos map, and removes the used secret from the held
set, so the secret cannot be used again in later blocks. -/
theorem C8_preimage_claim_single_use (E : BtcEnv) (operatorPk selfSpk : Nat)
    (st : WState) (i0 : TxIn) (ins : List TxIn) (o0 o1 : TxOut)
    (depth index j p0 : Nat)
    (hfind : mapFind i0.previous_output st.utxos = some (depth, index))
    (heq : o0.value = o1.value)
    (hj : j = 0 ∨ j = 1)
    (hmatch : st.pairs.filter
        (fun p => is_spendable_with_preimage E operatorPk (if j = 0 then o0 else o1) p)
      = [p0])
    (hother : st.pairs.filter
        (fun p => is_spendable_with_preimage E operatorPk (if j = 0 then o1 else o0) p)
      = []) :
    watchTx E operatorPk selfSpk st ⟨i0 :: ins, [o0, o1]⟩
      = .ok (⟨setRemove p0 st.pairs,
          mapRemove ⟨E.txid ⟨i0 :: ins, [o0, o1]⟩, j⟩
            (mapInsert ⟨E.txid ⟨i0 :: ins, [o0, o1]⟩, 1⟩ (depth + 1, index * 2 + 1)
              (mapInsert ⟨E.txid ⟨i0 :: ins, [o0, o1]⟩, 0⟩ (depth + 1, index * 2)
                (mapRemove i0.previous_output st.utxos)))⟩,
        [spend_connector_tree_utxo E selfSpk ⟨E.txid ⟨i0 :: ins, [o0, o1]⟩, j⟩ o0.value])
    ∧ (spend_connector_tree_utxo E selfSpk ⟨E.txid ⟨i0 :: ins, [o0, o1]⟩, j⟩
        o0.value).input
        = [⟨⟨E.txid ⟨i0 :: ins, [o0, o1]⟩, j⟩, E.seqRelative⟩]
    ∧ (spend_connector_tree_utxo E selfSpk ⟨E.txid ⟨i0 :: ins, [o0, o1]⟩, j⟩
        o0.value).output
        = [⟨o0.value - E.minRelayFee, selfSpk⟩] := by
  refine ⟨?_, rfl, rfl⟩
  rcases hj with hj | hj
  · subst hj
    norm_num at hmatch hother
    have hother2 : List.filter (fun p => is_spendable_with_preimage E operatorPk o1 p)
        st.pairs = [] :=
      List.filter_eq_nil_iff.mpr (fun a ha => by simp [hother a ha])
    have hstep1 : List.filter (fun p => is_spendable_with_preimage E operatorPk o1 p)
        (setRemove p0 st.pairs) = [] := filter_setRemove_nil st.pairs _ p0 hother2
    simp only [watchTx, hfind]
    rw [if_pos heq]
    simp only [processOutputs, hmatch, hstep1, List.foldl_cons, List.foldl_nil,
      List.map_cons, List.map_nil, List.nil_append, List.append_nil]
  · subst hj
    norm_num at hmatch hother
    have hother2 : List.filter (fun p => is_spendable_with_preimage E operatorPk o0 p)
        st.pairs = [] :=
      List.filter_eq_nil_iff.mpr (fun a ha => by simp [hother a ha])
    simp only [watchTx, hfind]
    rw [if_pos heq]
    simp only [processOutputs, hother2, hmatch, List.foldl_cons, List.foldl_nil,
      List.map_cons, List.map_nil, List.nil_append, List.append_nil]

/-- Witness for C8 at the concrete environment: the single held secret 4 hashes to the
script pubkey of child output 0 of the split of tracked UTXO (3,0). -/
theorem C8_preimage_claim_single_use_witness :
    (mapFind (⟨3, 0⟩ : OutPoint) [(⟨3, 0⟩, (2, 5))] = some (2, 5)
      ∧ (⟨50, 91004⟩ : TxOut).value = (⟨50, 77⟩ : TxOut).value
      ∧ ((0 : Nat) = 0 ∨ (0 : Nat) = 1)
      ∧ ([4] : List Nat).filter
          (fun p => is_spendable_with_preimage envT 9
            (if (0 : Nat) = 0 then ⟨50, 91004⟩ else ⟨50, 77⟩) p) = [4]
      ∧ ([4] : List Nat).filter
          (fun p => is_spendable_with_preimage envT 9
            (if (0 : Nat) = 0 then ⟨50, 77⟩ else ⟨50, 91004⟩) p) = [])
    ∧ (watchTx envT 9 5 ⟨[4], [(⟨3, 0⟩, (2, 5))]⟩
          ⟨[⟨⟨3, 0⟩, 0⟩], [⟨50, 91004⟩, ⟨50, 77⟩]⟩
        = .ok (⟨setRemove 4 [4],
            mapRemove ⟨envT.txid ⟨[⟨⟨3, 0⟩, 0⟩], [⟨50, 91004⟩, ⟨50, 77⟩]⟩, 0⟩
              (mapInsert ⟨envT.txid ⟨[⟨⟨3, 0⟩, 0⟩], [⟨50, 91004⟩, ⟨50, 77⟩]⟩, 1⟩ (2 + 1, 5 * 2 + 1)
                (mapInsert ⟨envT.txid ⟨[⟨⟨3, 0⟩, 0⟩], [⟨50, 91004⟩, ⟨50, 77⟩]⟩, 0⟩ (2 + 1, 5 * 2)
                  (mapRemove ⟨3, 0⟩ [(⟨3, 0⟩, (2, 5))])))⟩,
          [spend_connector_tree_utxo envT 5
            ⟨envT.txid ⟨[⟨⟨3, 0⟩, 0⟩], [⟨50, 91004⟩, ⟨50, 77⟩]⟩, 0⟩
            (⟨50, 91004⟩ : TxOut).value])
      ∧ (spend_connector_tree_utxo envT 5
            ⟨envT.txid ⟨[⟨⟨3, 0⟩, 0⟩], [⟨50, 91004⟩, ⟨50, 77⟩]⟩, 0⟩
            (⟨50, 91004⟩ : TxOut).value).input
          = [⟨⟨envT.txid ⟨[⟨⟨3, 0⟩, 0⟩], [⟨50, 91004⟩, ⟨50, 77⟩]⟩, 0⟩, envT.seqRelative⟩]
      ∧ (spend_connector_tree_utxo envT 5
            ⟨envT.txid ⟨[⟨⟨3, 0⟩, 0⟩], [⟨50, 91004⟩, ⟨50, 77⟩]⟩, 0⟩
            (⟨50, 91004⟩ : TxOut).value).output
          = [⟨(⟨50, 91004⟩ : TxOut).value - envT.minRelayFee, 5⟩]) :=
  ⟨⟨rfl, rfl, Or.inl rfl, by decide, by decide⟩,
    C8_preimage_claim_single_use envT 9 5 ⟨[4], [(⟨3, 0⟩, (2, 5))]⟩
      ⟨⟨3, 0⟩, 0⟩ [] ⟨50, 91004⟩ ⟨50, 77⟩ 2 5 0 4
      rfl rfl (Or.inl rfl) (by decide) (by decide)⟩
